import Mathlib

/-!
# URL shortener: key generation, validation gate and mapping store

A shallow embedding of `cmd/url-shortener/main.go`, `storage/in_memory.go` and
`storage/postgres.go`.

Conventions of the embedding.

* A Go `string` is a Lean `String`. `len(s)` is the byte length
  `String.utf8ByteSize`, `s[i]` and `s[:k]` address bytes (`String.get`,
  `String.extract` at byte positions), `[]rune(s)` is the list of characters.
* A `*big.Int` is an `Int`; `DivMod` is Euclidean division, which is what `/`
  and `%` are on `Int`.
* A Go `error` is the text of its message; `nil` is `none`.
* A function with several results returns a tuple; a method that writes to its
  receiver also returns the receiver's new state.
* Library functions the repository calls but does not define (`sha256.Sum256`,
  `url.ParseRequestURI`, the SQL driver) are parameters of the definitions
  that call them. The namespace `neturl` holds a model of the standard
  library's request-URI parser, used where a statement needs the parser's
  answer on a given text.
-/

namespace UrlShortener

/-! ## Key generation (`cmd/url-shortener/main.go`) -/

/-- The constant `base62Chars` (main.go:19). -/
def base62Chars : String :=
  "0123456789abcdefghijklmnopqrstuvwxyzABCDEFGHIJKLMNOPQRSTUVWXYZ"

/-- The loop of `reverse` (main.go:53-55) on the rune slice `r`: while `i < j`,
swap `r[i]` and `r[j]`, then step `i` up and `j` down. -/
def reverseLoop (r : List Char) (i j : Nat) : List Char :=
  if i < j then
    reverseLoop ((r.set i (r.getD j default)).set j (r.getD i default)) (i + 1) (j - 1)
  else r
termination_by j - i

/-- The function `reverse` (main.go:51-57): the runes of `s`, swapped in place
from both ends, turned back into a string. -/
def reverse (s : String) : String :=
  let r : List Char := s.data
  String.mk (reverseLoop r 0 (r.length - 1))

/-- The loop of `encodeBase62` (main.go:43-46): while `num > 0`, divide `num`
by 62 and write the alphabet byte at the remainder to the builder. The bytes
of `base62Chars` are ASCII, so the byte at an offset is the character there.
`DivMod` stores the quotient in the caller's integer; `generateShortKey` does not
read that integer again, so the embedding passes `num` by value. -/
def encodeLoop (num : Int) (encoded : String) : String :=
  if 0 < num then
    encodeLoop (num / 62) (encoded.push (base62Chars.get ⟨(num % 62).toNat⟩))
  else encoded
termination_by num.toNat
decreasing_by
  rename_i h
  omega

/-- The function `encodeBase62` (main.go:33-49). -/
def encodeBase62 (num : Int) : String :=
  if num = 0 then
    String.singleton (base62Chars.get ⟨0⟩)
  else
    reverse (encodeLoop num "")

/-- The result type `[32]byte` of `sha256.Sum256`. -/
structure Digest where
  bytes : List UInt8
  size_eq : bytes.length = 32

/-- The method `(*big.Int).SetBytes`: `buf` read as a big-endian unsigned
integer. -/
def setBytes (buf : List UInt8) : Int :=
  buf.foldl (fun acc b => acc * 256 + (b.toNat : Int)) 0

/-- The function `generateShortKey` (main.go:59-68); `sum256` is
`sha256.Sum256`. -/
def generateShortKey (sum256 : ByteArray → Digest) (longURL : String) : String :=
  let hash := sum256 longURL.toUTF8
  let hashNum := setBytes hash.bytes
  let encodedKey := encodeBase62 hashNum
  if encodedKey.utf8ByteSize > 7 then
    encodedKey.extract 0 ⟨7⟩
  else
    encodedKey

/-! ## Validation (`cmd/url-shortener/main.go`) -/

/-- The fields of `url.URL` that `isValidURL` reads. A host need not be valid
UTF-8 once its escapes are resolved, so both fields are kept as bytes. -/
structure URL where
  Scheme : List UInt8
  Host : List UInt8
deriving DecidableEq

/-- The function `isValidURL` (main.go:70-73); the argument `ParseRequestURI`
is `url.ParseRequestURI`, with `none` for a non-nil error. -/
def isValidURL (ParseRequestURI : String → Option URL) (u : String) : Bool :=
  match ParseRequestURI u with
  | some parsedURL => parsedURL.Scheme != [] && parsedURL.Host != []
  | none => false

/-! ## The mapping store (`storage/in_memory.go`, `storage/postgres.go`) -/

/-- The interface `Storage` (in_memory.go:7-10) over a store whose state has
type `σ`. `Save` returns the store's next state with its error. -/
class Storage (σ : Type) where
  Save : σ → String → String → σ × Option String
  Get : σ → String → String × Option String

/-- The type `InMemoryStorage` (in_memory.go:12-14); the Go map is the partial
function it denotes. -/
structure InMemoryStorage where
  data : String → Option String

/-- The function `NewInMemoryStorage` (in_memory.go:16-18). -/
def NewInMemoryStorage : InMemoryStorage :=
  { data := fun _ => none }

/-- The method `InMemoryStorage.Save` (in_memory.go:20-23). -/
def InMemoryStorage.Save (s : InMemoryStorage) (shortURL originalURL : String) :
    InMemoryStorage × Option String :=
  ({ data := fun key => if key = shortURL then some originalURL else s.data key }, none)

/-- The method `InMemoryStorage.Get` (in_memory.go:25-30). -/
def InMemoryStorage.Get (s : InMemoryStorage) (shortURL : String) : String × Option String :=
  match s.data shortURL with
  | some url => (url, none)
  | none => ("", some "URL not found")

instance : Storage InMemoryStorage where
  Save := InMemoryStorage.Save
  Get := InMemoryStorage.Get

/-- What `db.QueryRow(query, arg).Scan(&dest)` can report: a row's value, the
sentinel `sql.ErrNoRows`, or another error with its text. -/
inductive ScanResult where
  | row (value : String)
  | errNoRows
  | failed (msg : String)

/-- The handle `*sql.DB` as far as `PostgresStorage.Get` uses it: the answer of
the database to a one-argument query. -/
structure SqlDB where
  QueryRowScan : String → String → ScanResult

/-- The type `PostgresStorage` (postgres.go:8-10). -/
structure PostgresStorage where
  db : SqlDB

/-- The method `PostgresStorage.Get` (postgres.go:67-78). -/
def PostgresStorage.Get (s : PostgresStorage) (shortURL : String) : String × Option String :=
  let query := "SELECT original_url FROM urls WHERE short_url = $1"
  match s.db.QueryRowScan query shortURL with
  | .row originalURL => (originalURL, none)
  | .errNoRows => ("", some "URL не найден")
  | .failed msg => ("", some ("не удалось получить URL: " ++ msg))

/-! ## The orchestrator (`cmd/url-shortener/main.go`) -/

/-- The type `URLShortener` (main.go:21-24); `store` is the state of the store
behind the interface value. -/
structure URLShortener (σ : Type) where
  store : σ
  urlBase : String

/-- The function `NewURLShortener` (main.go:26-31). -/
def NewURLShortener {σ : Type} (store : σ) (urlBase : String) : URLShortener σ :=
  { store := store, urlBase := urlBase }

/-- The method `URLShortener.Shorten` (main.go:75-88): the shortener after the
call, the returned string and the returned error. -/
def URLShortener.Shorten {σ : Type} [Storage σ] (sum256 : ByteArray → Digest)
    (ParseRequestURI : String → Option URL) (us : URLShortener σ) (longURL : String) :
    URLShortener σ × String × Option String :=
  if !isValidURL ParseRequestURI longURL then
    (us, "", some "неправильный URL")
  else
    let shortKey := generateShortKey sum256 longURL
    let shortURL := us.urlBase ++ "/" ++ shortKey
    match Storage.Save us.store shortKey longURL with
    | (store, some err) => ({ us with store := store }, "", some err)
    | (store, none) => ({ us with store := store }, shortURL, none)

/-- The method `URLShortener.Expand` (main.go:90-96). -/
def URLShortener.Expand {σ : Type} [Storage σ] (us : URLShortener σ) (shortKey : String) :
    String × Option String :=
  match Storage.Get us.store shortKey with
  | (_, some err) => ("", some err)
  | (longURL, none) => (longURL, none)

/-! ## Runs of calls -/

/-- One call on a shortener. -/
inductive Call where
  | shorten (longURL : String)
  | expand (shortKey : String)

/-- The shortener after one call. -/
def step {σ : Type} [Storage σ] (sum256 : ByteArray → Digest)
    (ParseRequestURI : String → Option URL) (us : URLShortener σ) : Call → URLShortener σ
  | .shorten longURL => (us.Shorten sum256 ParseRequestURI longURL).1
  | .expand _ => us

/-- The shortener after a finite sequence of calls. -/
def run {σ : Type} [Storage σ] (sum256 : ByteArray → Digest)
    (ParseRequestURI : String → Option URL) (us : URLShortener σ) (calls : List Call) :
    URLShortener σ :=
  calls.foldl (step sum256 ParseRequestURI) us

/-- The in-memory store after a finite sequence of `Save` calls, each given as
its key and its URL. -/
def saveAll (s : InMemoryStorage) (writes : List (String × String)) : InMemoryStorage :=
  writes.foldl (fun st w => (st.Save w.1 w.2).1) s

/-! ## Notions used to state the properties -/

/-- The alphabet byte that stands for the digit `d`. -/
def digitChar (d : Nat) : Char := base62Chars.get ⟨d⟩

/-- The value of an alphabet character: its index in `base62Chars`. -/
def charValue (c : Char) : Nat := base62Chars.data.indexOf c

/-- The number a string denotes when its characters are read left to right as
base-62 digits. -/
def base62Value (s : String) : Nat :=
  s.data.foldl (fun acc c => acc * 62 + charValue c) 0

/-- The digest of the bytes of `u`, read as a big-endian integer. -/
def digestValue (sum256 : ByteArray → Digest) (u : String) : Int :=
  setBytes (sum256 u.toUTF8).bytes

/-- The stored pairs of a shortener over an in-memory store all come from
`Shorten` on a valid URL. -/
def StoredByShorten (sum256 : ByteArray → Digest) (ParseRequestURI : String → Option URL)
    (us : URLShortener InMemoryStorage) : Prop :=
  ∀ k u, us.store.data k = some u →
    isValidURL ParseRequestURI u = true ∧ k = generateShortKey sum256 u

/-- A digest function for evaluating the definitions on given inputs: every
input gets the bytes 1, 2, ..., 32. -/
def rampSum256 (_ : ByteArray) : Digest :=
  { bytes := (List.range 32).map fun i => (i + 1).toUInt8, size_eq := by decide }

/-- A digest function for evaluating the definitions on given inputs: every
input gets 31 zero bytes followed by the input's length modulo 256. -/
def sizeSum256 (data : ByteArray) : Digest :=
  { bytes := List.replicate 31 0 ++ [data.size.toUInt8], size_eq := by simp }

/-! ## The request-URI parser of the standard library

`url.ParseRequestURI` belongs to Go's `net/url`, not to the repository. The
definitions below follow that package's `parse` with `viaRequest = true` and
the helpers it calls, on the bytes of the text, and keep of the parsed URL the
two fields `isValidURL` reads. -/

namespace neturl

/-- The byte of an ASCII character. -/
def byte (c : Char) : UInt8 := c.toNat.toUInt8

def isLetter (c : UInt8) : Bool :=
  (byte 'a' ≤ c && c ≤ byte 'z') || (byte 'A' ≤ c && c ≤ byte 'Z')

def isDigit (c : UInt8) : Bool := byte '0' ≤ c && c ≤ byte '9'

/-- `stringContainsCTLByte`: some byte is below the space or is DEL. -/
def stringContainsCTLByte (s : List UInt8) : Bool :=
  s.any fun b => b < byte ' ' || b == 0x7f

/-- `strings.Index(s, sub)`: the first offset at which `sub` starts, if any. -/
def index (sub : List UInt8) : List UInt8 → Option Nat
  | [] => if sub = [] then some 0 else none
  | c :: cs => if sub.isPrefixOf (c :: cs) then some 0 else (index sub cs).map (· + 1)

/-- `strings.LastIndex(s, c)` for a one-byte `c`. -/
def lastIndexByte (c : UInt8) : List UInt8 → Option Nat
  | [] => none
  | d :: ds =>
    match lastIndexByte c ds with
    | some i => some (i + 1)
    | none => if d = c then some 0 else none

/-- `strings.Cut(s, c)` for a one-byte `c`: the text before and after the first
`c`, or `s` and the empty string when there is none. -/
def cut (c : UInt8) (s : List UInt8) : List UInt8 × List UInt8 :=
  match index [c] s with
  | some i => (s.take i, s.drop (i + 1))
  | none => (s, [])

/-- `strings.ToLower` on a string of ASCII bytes. -/
def toLower (s : List UInt8) : List UInt8 :=
  s.map fun c => if byte 'A' ≤ c && c ≤ byte 'Z' then c + 32 else c

/-- The loop of `getScheme`; `i` is the offset of the head of the third argument
in `rawURL`. `none` is the error `missing protocol scheme`. -/
def getSchemeLoop (rawURL : List UInt8) : Nat → List UInt8 → Option (List UInt8 × List UInt8)
  | _, [] => some ([], rawURL)
  | i, c :: cs =>
    if isLetter c then getSchemeLoop rawURL (i + 1) cs
    else if isDigit c || c == byte '+' || c == byte '-' || c == byte '.' then
      if i = 0 then some ([], rawURL) else getSchemeLoop rawURL (i + 1) cs
    else if c == byte ':' then
      if i = 0 then none else some (rawURL.take i, cs)
    else some ([], rawURL)

def getScheme (rawURL : List UInt8) : Option (List UInt8 × List UInt8) :=
  getSchemeLoop rawURL 0 rawURL

/-- The escaping modes of `net/url`. -/
inductive Encoding where
  | encodePath | encodePathSegment | encodeHost | encodeZone
  | encodeUserPassword | encodeQueryComponent | encodeFragment
deriving DecidableEq

def ishex (c : UInt8) : Bool :=
  isDigit c || (byte 'a' ≤ c && c ≤ byte 'f') || (byte 'A' ≤ c && c ≤ byte 'F')

def unhex (c : UInt8) : UInt8 :=
  if isDigit c then c - byte '0'
  else if byte 'a' ≤ c && c ≤ byte 'f' then c - byte 'a' + 10
  else if byte 'A' ≤ c && c ≤ byte 'F' then c - byte 'A' + 10
  else 0

/-- `shouldEscape(c, encodeHost)`: letters, digits, the sub-delimiters and
brackets a host may hold, and the unreserved marks need no escaping. -/
def shouldEscapeHost (c : UInt8) : Bool :=
  !(isLetter c || isDigit c ||
    "!$&()*+,;=:[]<>".toUTF8.data.toList.contains c || c == 0x22 || c == 0x27 ||
    "-_.~".toUTF8.data.toList.contains c)

/-- `unescape(s, mode)`: `none` for a malformed or forbidden escape or a
forbidden host byte, else `s` with every `%XX` replaced by its byte (and `+`
by a space in a query component). -/
def unescape (mode : Encoding) : List UInt8 → Option (List UInt8)
  | [] => some []
  | c :: cs =>
    if c = byte '%' then
      match cs with
      | h1 :: h2 :: rest =>
        if !ishex h1 || !ishex h2 then none
        else if mode = .encodeHost && unhex h1 < 8 && [h1, h2] != [byte '2', byte '5'] then none
        else if mode = .encodeZone && [h1, h2] != [byte '2', byte '5'] &&
            (unhex h1 <<< 4 ||| unhex h2) != byte ' ' &&
            shouldEscapeHost (unhex h1 <<< 4 ||| unhex h2) then none
        else (unescape mode rest).map ((unhex h1 <<< 4 ||| unhex h2) :: ·)
      | _ => none
    else if c = byte '+' then
      (unescape mode cs).map ((if mode = .encodeQueryComponent then byte ' ' else c) :: ·)
    else if (mode = .encodeHost || mode = .encodeZone) && c < 0x80 && shouldEscapeHost c then none
    else (unescape mode cs).map (c :: ·)

/-- `validOptionalPort`: empty, or a colon followed by decimal digits. -/
def validOptionalPort : List UInt8 → Bool
  | [] => true
  | c :: cs => c == byte ':' && cs.all isDigit

/-- `validUserinfo`: only letters, digits and the listed marks. -/
def validUserinfo (s : List UInt8) : Bool :=
  s.all fun r =>
    isLetter r || isDigit r || "-._:~!$&()*+,;=%@".toUTF8.data.toList.contains r || r == 0x27

/-- `parseHost`. -/
def parseHost (host : List UInt8) : Option (List UInt8) :=
  if host.head? = some (byte '[') then
    match lastIndexByte (byte ']') host with
    | none => none
    | some i =>
      if !validOptionalPort (host.drop (i + 1)) then none
      else
        match index "%25".toUTF8.data.toList (host.take i) with
        | some zone =>
          match unescape .encodeHost (host.take zone),
              unescape .encodeZone ((host.take i).drop zone),
              unescape .encodeHost (host.drop i) with
          | some host1, some host2, some host3 => some (host1 ++ host2 ++ host3)
          | _, _, _ => none
        | none => unescape .encodeHost host
  else
    match lastIndexByte (byte ':') host with
    | some i => if !validOptionalPort (host.drop i) then none else unescape .encodeHost host
    | none => unescape .encodeHost host

/-- `parseAuthority`, as far as the host and the error go. -/
def parseAuthority (authority : List UInt8) : Option (List UInt8) :=
  match lastIndexByte (byte '@') authority with
  | none => parseHost authority
  | some i =>
    match parseHost (authority.drop (i + 1)) with
    | none => none
    | some host =>
      let userinfo := authority.take i
      if !validUserinfo userinfo then none
      else if !userinfo.contains (byte ':') then
        (unescape .encodeUserPassword userinfo).map fun _ => host
      else
        match unescape .encodeUserPassword (cut (byte ':') userinfo).1,
            unescape .encodeUserPassword (cut (byte ':') userinfo).2 with
        | some _, some _ => some host
        | _, _ => none

/-- `parse(rawURL, viaRequest)` with `viaRequest = true`, as far as the scheme,
the host and the error go. -/
def parse (rawURL : List UInt8) : Option URL :=
  if stringContainsCTLByte rawURL then none
  else if rawURL = [] then none
  else if rawURL = [byte '*'] then some { Scheme := [], Host := [] }
  else
    match getScheme rawURL with
    | none => none
    | some (scheme, rest0) =>
      let scheme := toLower scheme
      let rest :=
        if rest0.getLast? = some (byte '?') && rest0.count (byte '?') = 1 then rest0.dropLast
        else (cut (byte '?') rest0).1
      if rest.head? ≠ some (byte '/') then
        if scheme ≠ [] then some { Scheme := scheme, Host := [] }
        else none
      else if scheme ≠ [] && (byte '/' :: [byte '/']).isPrefixOf rest then
        let authority := rest.drop 2
        let (authority, rest) :=
          match index [byte '/'] authority with
          | some i => (authority.take i, authority.drop i)
          | none => (authority, [])
        match parseAuthority authority with
        | none => none
        | some host =>
          match unescape .encodePath rest with
          | none => none
          | some _ => some { Scheme := scheme, Host := host }
      else
        match unescape .encodePath rest with
        | none => none
        | some _ => some { Scheme := scheme, Host := [] }

/-- `url.ParseRequestURI`. -/
def ParseRequestURI (rawURL : String) : Option URL :=
  parse rawURL.toUTF8.data.toList

end neturl

/-! ## Lemmas on the key generator -/

theorem reverseLoop_length (r : List Char) (i j : Nat) :
    (reverseLoop r i j).length = r.length := by
  induction r, i, j using reverseLoop.induct with
  | case1 r i j h ih => rw [reverseLoop, if_pos h, ih]; simp
  | case2 r i j h => rw [reverseLoop, if_neg h]

theorem reverseLoop_getElem? (r : List Char) (i j : Nat) (hj : j < r.length) (k : Nat) :
    (reverseLoop r i j)[k]? = if i ≤ k ∧ k ≤ j then r[i + j - k]? else r[k]? := by
  induction r, i, j using reverseLoop.induct with
  | case1 r i j h ih =>
    rw [reverseLoop, if_pos h, ih (by simp; omega)]
    have hi : i < r.length := by omega
    simp only [List.getElem?_set, List.length_set, List.getD_eq_getElem?_getD,
      List.getElem?_eq_getElem hi, List.getElem?_eq_getElem hj, Option.getD_some]
    by_cases h1 : i + 1 ≤ k ∧ k ≤ j - 1
    · have h2 : i ≤ k ∧ k ≤ j := by omega
      rw [if_pos h1, if_pos h2]
      have e : i + 1 + (j - 1) - k = i + j - k := by omega
      rw [e, if_neg (by omega), if_neg (by omega)]
    · rw [if_neg h1]
      by_cases hkj : j = k
      · subst hkj
        rw [if_pos rfl, if_pos hj, if_pos (by omega)]
        have e : i + j - j = i := by omega
        rw [e, List.getElem?_eq_getElem hi]
      · rw [if_neg hkj]
        by_cases hki : i = k
        · subst hki
          rw [if_pos rfl, if_pos hi, if_pos (by omega)]
          have e : i + j - i = j := by omega
          rw [e, List.getElem?_eq_getElem hj]
        · rw [if_neg hki, if_neg (by omega)]
  | case2 r i j h =>
    rw [reverseLoop, if_neg h]
    split
    · next hk =>
      have e : i + j - k = k := by omega
      rw [e]
    · rfl

theorem reverseLoop_full (r : List Char) : reverseLoop r 0 (r.length - 1) = r.reverse := by
  rcases Nat.eq_zero_or_pos r.length with h0 | hpos
  · have : r = [] := List.length_eq_zero.mp h0
    subst this
    rw [reverseLoop]; simp
  · apply List.ext_getElem?
    intro k
    rw [reverseLoop_getElem? r 0 (r.length - 1) (by omega) k]
    by_cases hk : k < r.length
    · rw [if_pos (by omega), List.getElem?_reverse hk]
      congr 1
      omega
    · rw [if_neg (by omega)]
      rw [List.getElem?_eq_none (by omega), List.getElem?_eq_none (by simp; omega)]

theorem reverse_data (s : String) : (reverse s).data = s.data.reverse := by
  show reverseLoop s.data 0 (s.data.length - 1) = _
  exact reverseLoop_full _

theorem encodeLoop_data (n : Nat) : ∀ acc : String,
    (encodeLoop (n : Int) acc).data = acc.data ++ (Nat.digits 62 n).map digitChar := by
  induction n using Nat.strong_induction_on with
  | _ n ih =>
    intro acc
    rw [encodeLoop]
    by_cases h : 0 < n
    · have h' : (0 : Int) < (n : Int) := by exact_mod_cast h
      rw [if_pos h']
      have e1 : (n : Int) / 62 = ((n / 62 : Nat) : Int) := by norm_cast
      have e2 : ((n : Int) % 62).toNat = n % 62 := by omega
      rw [e1, e2, ih (n / 62) (by omega), Nat.digits_def' (by norm_num) h]
      simp [digitChar, String.push]
    · have h0 : n = 0 := by omega
      subst h0
      simp

theorem encodeBase62_data (n : Nat) (h : 0 < n) :
    (encodeBase62 (n : Int)).data = ((Nat.digits 62 n).map digitChar).reverse := by
  have hn : ¬ ((n : Int) = 0) := by omega
  rw [encodeBase62, if_neg hn, reverse_data, encodeLoop_data]
  simp

theorem encodeBase62_zero : encodeBase62 0 = "0" := by
  rw [encodeBase62, if_pos rfl]
  decide

theorem encodeBase62_neg (z : Int) (h : z < 0) : encodeBase62 z = "" := by
  have hn : ¬ (z = 0) := by omega
  rw [encodeBase62, if_neg hn, encodeLoop, if_neg (by omega)]
  apply String.ext
  rw [reverse_data]
  rfl

theorem digitChar_fin : ∀ i : Fin 62,
    digitChar i.val ∈ base62Chars.data ∧ charValue (digitChar i.val) = i.val ∧
    (digitChar i.val).utf8Size = 1 ∧ (digitChar i.val = '0' → i.val = 0) := by
  decide

theorem digitChar_mem {d : Nat} (h : d < 62) : digitChar d ∈ base62Chars.data :=
  (digitChar_fin ⟨d, h⟩).1

theorem charValue_digitChar {d : Nat} (h : d < 62) : charValue (digitChar d) = d :=
  (digitChar_fin ⟨d, h⟩).2.1

theorem digitChar_utf8Size {d : Nat} (h : d < 62) : (digitChar d).utf8Size = 1 :=
  (digitChar_fin ⟨d, h⟩).2.2.1

theorem digitChar_ne_zero {d : Nat} (h : d < 62) (h0 : d ≠ 0) : digitChar d ≠ '0' :=
  fun e => h0 ((digitChar_fin ⟨d, h⟩).2.2.2 e)

theorem setBytes_bound (buf : List UInt8) :
    ∃ n : Nat, setBytes buf = (n : Int) ∧ n < 256 ^ buf.length := by
  unfold setBytes
  suffices h : ∀ (l : List UInt8) (a : Nat), ∃ n : Nat,
      l.foldl (fun (acc : Int) b => acc * 256 + (b.toNat : Int)) (a : Int) = (n : Int) ∧
        n < (a + 1) * 256 ^ l.length by
    obtain ⟨n, h1, h2⟩ := h buf 0
    exact ⟨n, h1, by simpa using h2⟩
  intro l
  induction l with
  | nil => intro a; exact ⟨a, rfl, by simp⟩
  | cons b t ih =>
    intro a
    obtain ⟨n, hn, hlt⟩ := ih (a * 256 + b.toNat)
    refine ⟨n, by rw [List.foldl_cons, ← hn]; norm_cast, ?_⟩
    have hb : b.toNat < 256 := b.val.isLt
    have hstep : a * 256 + b.toNat + 1 ≤ (a + 1) * 256 := by omega
    calc n < (a * 256 + b.toNat + 1) * 256 ^ t.length := hlt
      _ ≤ (a + 1) * 256 * 256 ^ t.length := Nat.mul_le_mul_right _ hstep
      _ = (a + 1) * 256 ^ (b :: t).length := by rw [List.length_cons, pow_succ]; ring

theorem setBytes_nonneg (buf : List UInt8) : ∃ n : Nat, setBytes buf = (n : Int) := by
  obtain ⟨n, h, -⟩ := setBytes_bound buf
  exact ⟨n, h⟩

theorem utf8Len_singleByte (l : List Char) (h : ∀ c ∈ l, c.utf8Size = 1) :
    String.utf8Len l = l.length := by
  induction l with
  | nil => rfl
  | cons c t ih =>
    rw [String.utf8Len_cons, ih (fun x hx => h x (List.mem_cons_of_mem _ hx)),
      h c (List.mem_cons_self _ _), List.length_cons]

theorem extract_singleByte (l : List Char) (h : ∀ c ∈ l, c.utf8Size = 1) (k : Nat)
    (hk : k ≤ l.length) : String.extract ⟨l⟩ 0 ⟨k⟩ = ⟨l.take k⟩ := by
  have hlen : String.utf8Len (l.take k) = k := by
    rw [utf8Len_singleByte _ (fun c hc => h c (List.mem_of_mem_take hc)), List.length_take]
    omega
  have key := String.extract_of_valid [] (l.take k) (l.drop k)
  rw [List.nil_append, List.take_append_drop, String.utf8Len_nil, Nat.zero_add, hlen] at key
  exact key

/-- The last statement of `generateShortKey` applied to the encoded string. -/
theorem generateShortKey_eq (sum256 : ByteArray → Digest) (u : String) :
    generateShortKey sum256 u =
      (if (encodeBase62 (setBytes (sum256 u.toUTF8).bytes)).utf8ByteSize > 7 then
        (encodeBase62 (setBytes (sum256 u.toUTF8).bytes)).extract 0 ⟨7⟩
      else encodeBase62 (setBytes (sum256 u.toUTF8).bytes)) := rfl

theorem truncate_singleByte (s : String) (h : ∀ c ∈ s.data, c.utf8Size = 1) :
    (if s.utf8ByteSize > 7 then s.extract 0 ⟨7⟩ else s) = ⟨s.data.take 7⟩ := by
  have hl : s.utf8ByteSize = s.data.length := utf8Len_singleByte s.data h
  rw [hl]
  split
  · next hgt => exact extract_singleByte s.data h 7 (by omega)
  · next hle => rw [List.take_of_length_le (by omega)]

theorem encodeBase62_digits (n : Nat) :
    ∃ ds : List Nat, (∀ d ∈ ds, d < 62) ∧
      (encodeBase62 (n : Int)).data = ds.map digitChar := by
  rcases Nat.eq_zero_or_pos n with h0 | hpos
  · subst h0
    refine ⟨[0], by simp, ?_⟩
    show (encodeBase62 0).data = _
    rw [encodeBase62_zero]
    decide
  · refine ⟨(Nat.digits 62 n).reverse, ?_, ?_⟩
    · intro d hd
      exact Nat.digits_lt_base (by norm_num) (List.mem_reverse.mp hd)
    · rw [encodeBase62_data n hpos, List.map_reverse]

theorem encodeBase62_singleByte (n : Nat) :
    ∀ c ∈ (encodeBase62 (n : Int)).data, c.utf8Size = 1 := by
  obtain ⟨ds, hds, e⟩ := encodeBase62_digits n
  intro c hc
  rw [e, List.mem_map] at hc
  obtain ⟨d, hd, rfl⟩ := hc
  exact digitChar_utf8Size (hds d hd)

theorem encodeBase62_mem (n : Nat) :
    ∀ c ∈ (encodeBase62 (n : Int)).data, c ∈ base62Chars.data := by
  obtain ⟨ds, hds, e⟩ := encodeBase62_digits n
  intro c hc
  rw [e, List.mem_map] at hc
  obtain ⟨d, hd, rfl⟩ := hc
  exact digitChar_mem (hds d hd)

theorem generateShortKey_take (sum256 : ByteArray → Digest) (u : String) :
    ∃ n : Nat, setBytes (sum256 u.toUTF8).bytes = (n : Int) ∧
      generateShortKey sum256 u = ⟨(encodeBase62 (n : Int)).data.take 7⟩ := by
  obtain ⟨n, hn⟩ := setBytes_nonneg (sum256 u.toUTF8).bytes
  refine ⟨n, hn, ?_⟩
  rw [generateShortKey_eq, hn]
  exact truncate_singleByte _ (encodeBase62_singleByte n)

theorem base62Value_digits (ds : List Nat) (h : ∀ d ∈ ds, d < 62) :
    List.foldl (fun acc c => acc * 62 + charValue c) 0 (ds.map digitChar).reverse
      = Nat.ofDigits 62 ds := by
  induction ds with
  | nil => rfl
  | cons d t ih =>
    rw [List.map_cons, List.reverse_cons, List.foldl_append,
      ih (fun x hx => h x (List.mem_cons_of_mem _ hx)), List.foldl_cons, List.foldl_nil,
      charValue_digitChar (h d (List.mem_cons_self _ _)), Nat.ofDigits_cons]
    omega

theorem digits_div_pow (k : Nat) : ∀ n : Nat,
    Nat.digits 62 (n / 62 ^ k) = (Nat.digits 62 n).drop k := by
  induction k with
  | zero => intro n; simp
  | succ k ih =>
    intro n
    rcases Nat.eq_zero_or_pos n with h0 | hpos
    · subst h0; simp
    · rw [Nat.digits_def' (b := 62) (n := n) (by norm_num) hpos, List.drop_succ_cons, ← ih,
        pow_succ', Nat.div_div_eq_div_mul]

theorem encodeBase62_length (n : Nat) (h : 0 < n) :
    (encodeBase62 (n : Int)).data.length = (Nat.digits 62 n).length := by
  rw [encodeBase62_data n h]
  simp

theorem encodeBase62_utf8ByteSize (n : Nat) :
    (encodeBase62 (n : Int)).utf8ByteSize = (encodeBase62 (n : Int)).data.length :=
  utf8Len_singleByte _ (encodeBase62_singleByte n)

theorem digits_length_le_seven (n : Nat) (h : n < 62 ^ 7) : (Nat.digits 62 n).length ≤ 7 := by
  rcases Nat.eq_zero_or_pos n with h0 | hpos
  · subst h0; simp
  · by_contra hc
    have h8 : 62 ^ 8 ≤ 62 ^ (Nat.digits 62 n).length :=
      Nat.pow_le_pow_right (by norm_num) (by omega)
    have := Nat.base_pow_length_digits_le 62 n (by norm_num) (by omega)
    omega

theorem seven_lt_digits_length (n : Nat) (h : 62 ^ 7 ≤ n) : 7 < (Nat.digits 62 n).length := by
  by_contra hc
  have h7 : 62 ^ (Nat.digits 62 n).length ≤ 62 ^ 7 :=
    Nat.pow_le_pow_right (by norm_num) (by omega)
  have := Nat.lt_base_pow_length_digits (b := 62) (m := n) (by norm_num)
  omega

theorem take_seven_small (n : Nat) (h : n < 62 ^ 7) :
    (⟨(encodeBase62 (n : Int)).data.take 7⟩ : String) = encodeBase62 (n : Int) := by
  have hl : (encodeBase62 (n : Int)).data.length ≤ 7 := by
    rcases Nat.eq_zero_or_pos n with h0 | hpos
    · subst h0
      show (encodeBase62 0).data.length ≤ 7
      rw [encodeBase62_zero]
      decide
    · rw [encodeBase62_length n hpos]
      exact digits_length_le_seven n h
  rw [List.take_of_length_le hl]

theorem take_seven_large (n : Nat) (h : 62 ^ 7 ≤ n) :
    (⟨(encodeBase62 (n : Int)).data.take 7⟩ : String)
      = encodeBase62 ((n / 62 ^ ((Nat.digits 62 n).length - 7) : Nat) : Int) ∧
    ((encodeBase62 (n : Int)).data.take 7).length = 7 := by
  have hpos : 0 < n := lt_of_lt_of_le (by norm_num) h
  have hL := seven_lt_digits_length n h
  have hd := digits_div_pow ((Nat.digits 62 n).length - 7) n
  have hlen : (Nat.digits 62 (n / 62 ^ ((Nat.digits 62 n).length - 7))).length = 7 := by
    rw [hd, List.length_drop]
    omega
  have hq : 0 < n / 62 ^ ((Nat.digits 62 n).length - 7) := by
    rcases Nat.eq_zero_or_pos (n / 62 ^ ((Nat.digits 62 n).length - 7)) with h0 | hp
    · rw [h0] at hlen
      simp at hlen
    · exact hp
  constructor
  · apply String.ext
    rw [encodeBase62_data _ hq, hd, encodeBase62_data n hpos]
    show List.take 7 (List.map digitChar (Nat.digits 62 n)).reverse = _
    rw [← List.map_reverse, ← List.map_reverse, ← List.map_take, List.reverse_drop]
    have e : (Nat.digits 62 n).length - ((Nat.digits 62 n).length - 7) = 7 := by omega
    rw [e]
  · rw [List.length_take, encodeBase62_length n hpos]
    omega

theorem generateShortKey_singleByte (sum256 : ByteArray → Digest) (u : String) :
    ∀ c ∈ (generateShortKey sum256 u).data, c.utf8Size = 1 := by
  obtain ⟨n, -, e⟩ := generateShortKey_take sum256 u
  intro c hc
  rw [e] at hc
  exact encodeBase62_singleByte n c (List.mem_of_mem_take hc)

theorem encodeBase62_3844 : encodeBase62 ((3844 : Nat) : Int) = "100" := by
  apply String.ext
  rw [encodeBase62_data _ (by decide)]
  norm_num [digitChar]
  decide

theorem generateShortKey_sizeSum256 :
    generateShortKey sizeSum256 "https://example.com" = "j" := by
  have h : setBytes (sizeSum256 "https://example.com".toUTF8).bytes = ((19 : Nat) : Int) := by
    decide
  have e : encodeBase62 ((19 : Nat) : Int) = "j" := by
    apply String.ext
    rw [encodeBase62_data _ (by decide)]
    norm_num [digitChar]
    decide
  rw [generateShortKey_eq, h, e]
  decide

theorem generateShortKey_rampSum256 :
    generateShortKey rampSum256 "https://example.com" = "eOH211g" := by
  have h : setBytes (rampSum256 "https://example.com".toUTF8).bytes
      = ((455867356320691211509944977504407603390036387149619137164185182714736811808
          : Nat) : Int) := by
    decide
  have e : encodeBase62
      ((455867356320691211509944977504407603390036387149619137164185182714736811808
        : Nat) : Int) = "eOH211g4C8WTvwm00MY5RSnsfLkGAwQq4MB8GDeQNO" := by
    apply String.ext
    rw [encodeBase62_data _ (by decide)]
    norm_num [digitChar]
    decide
  rw [generateShortKey_eq, h, e]
  decide

/-! ## The properties of the key generator -/

/-- C1: for every input string `u` and every digest function, the key
`generateShortKey u` is at most 7 bytes (and 7 characters) long and each of its
characters occurs in `base62Chars`, an alphabet of 62 characters. -/
theorem generateShortKey_bounded (sum256 : ByteArray → Digest) (u : String) :
    (generateShortKey sum256 u).utf8ByteSize ≤ 7 ∧
    (generateShortKey sum256 u).length ≤ 7 ∧
    (∀ c ∈ (generateShortKey sum256 u).data, c ∈ base62Chars.data) ∧
    base62Chars.length = 62 := by
  obtain ⟨n, -, e⟩ := generateShortKey_take sum256 u
  have hlen : (generateShortKey sum256 u).length ≤ 7 := by
    rw [e]
    show ((encodeBase62 (n : Int)).data.take 7).length ≤ 7
    rw [List.length_take]
    omega
  refine ⟨?_, hlen, ?_, by decide⟩
  · have hb : (generateShortKey sum256 u).utf8ByteSize
        = (generateShortKey sum256 u).data.length :=
      utf8Len_singleByte _ (generateShortKey_singleByte sum256 u)
    rw [hb]
    exact hlen
  · intro c hc
    rw [e] at hc
    exact encodeBase62_mem n c (List.mem_of_mem_take hc)

/-- C2: for every natural number `n`, every character of `encodeBase62 n` is
in `base62Chars`; read left to right as base-62 digits, with the character at
index `i` of `base62Chars` worth `i`, the string denotes `n`; for `n = 0` the
string is exactly "0"; for `n > 0` its first character is not the zero digit. -/
theorem encodeBase62_spec (n : Nat) :
    (∀ c ∈ (encodeBase62 (n : Int)).data, c ∈ base62Chars.data) ∧
    base62Value (encodeBase62 (n : Int)) = n ∧
    (n = 0 → encodeBase62 (n : Int) = "0") ∧
    (0 < n → ∃ c cs, (encodeBase62 (n : Int)).data = c :: cs ∧ c ≠ '0') := by
  refine ⟨encodeBase62_mem n, ?_, ?_, ?_⟩
  · rcases Nat.eq_zero_or_pos n with h0 | hpos
    · subst h0
      show base62Value (encodeBase62 0) = 0
      rw [encodeBase62_zero]
      decide
    · unfold base62Value
      rw [encodeBase62_data n hpos,
        base62Value_digits _ (fun d hd => Nat.digits_lt_base (by norm_num) hd),
        Nat.ofDigits_digits]
  · intro h0
    subst h0
    exact encodeBase62_zero
  · intro hpos
    have hne : Nat.digits 62 n ≠ [] := Nat.digits_ne_nil_iff_ne_zero.mpr (by omega)
    have hlast := Nat.getLast_digit_ne_zero 62 (m := n) (by omega)
    have hlt : (Nat.digits 62 n).getLast hne < 62 :=
      Nat.digits_lt_base (by norm_num) (List.getLast_mem hne)
    refine ⟨digitChar ((Nat.digits 62 n).getLast hne),
      ((Nat.digits 62 n).dropLast.map digitChar).reverse, ?_, digitChar_ne_zero hlt hlast⟩
    rw [encodeBase62_data n hpos]
    conv_lhs => rw [← List.dropLast_append_getLast hne]
    simp

/-- The statement C2 at `n = 0` and at `n = 3844 = 62 ^ 2`, whose encoding is
"100". -/
theorem encodeBase62_spec_witness :
    encodeBase62 ((0 : Nat) : Int) = "0" ∧
    encodeBase62 ((3844 : Nat) : Int) = "100" ∧
    base62Value (encodeBase62 ((3844 : Nat) : Int)) = 3844 ∧
    ∃ c cs, (encodeBase62 ((3844 : Nat) : Int)).data = c :: cs ∧ c ≠ '0' :=
  ⟨(encodeBase62_spec 0).2.2.1 rfl,
    encodeBase62_3844,
    (encodeBase62_spec 3844).2.1,
    (encodeBase62_spec 3844).2.2.2 (by decide)⟩

/-- C10: with `n` the digest of the bytes of `u` read as a big-endian integer,
`n` is not negative and below `2 ^ 256`; if `n < 62 ^ 7` the key is `encodeBase62 n` in full;
otherwise, with `L` the length of `encodeBase62 n`, the key has exactly 7
characters and is `encodeBase62 (n / 62 ^ (L - 7))`, the seven most significant
base-62 digits of `n`. -/
theorem generateShortKey_leading_digits (sum256 : ByteArray → Digest) (u : String) :
    0 ≤ digestValue sum256 u ∧ digestValue sum256 u < 2 ^ 256 ∧
    (digestValue sum256 u < 62 ^ 7 →
      generateShortKey sum256 u = encodeBase62 (digestValue sum256 u)) ∧
    (62 ^ 7 ≤ digestValue sum256 u →
      (generateShortKey sum256 u).length = 7 ∧
      (generateShortKey sum256 u).utf8ByteSize = 7 ∧
      generateShortKey sum256 u = encodeBase62 (digestValue sum256 u /
        62 ^ ((encodeBase62 (digestValue sum256 u)).utf8ByteSize - 7)) ∧
      (generateShortKey sum256 u).data
        = (((Nat.digits 62 (digestValue sum256 u).toNat).reverse).take 7).map digitChar) := by
  obtain ⟨n, hn, e⟩ := generateShortKey_take sum256 u
  have hb : (generateShortKey sum256 u).utf8ByteSize
      = (generateShortKey sum256 u).data.length :=
    utf8Len_singleByte _ (generateShortKey_singleByte sum256 u)
  have h256 : digestValue sum256 u < 2 ^ 256 := by
    obtain ⟨m, hm, hlt⟩ := setBytes_bound (sum256 u.toUTF8).bytes
    unfold digestValue
    rw [hm, (sum256 u.toUTF8).size_eq] at *
    have h2 : (256 : Nat) ^ 32 = 2 ^ 256 := by norm_num
    rw [h2] at hlt
    exact_mod_cast hlt
  refine ⟨?_, h256, ?_⟩
  · unfold digestValue
    rw [hn]
    exact Int.natCast_nonneg n
  unfold digestValue
  rw [hn]
  refine ⟨?_, ?_⟩
  · intro hsmall
    have hs : n < 62 ^ 7 := by exact_mod_cast hsmall
    rw [e, take_seven_small n hs]
  · intro hlarge
    have hl : 62 ^ 7 ≤ n := by exact_mod_cast hlarge
    have hpos : 0 < n := lt_of_lt_of_le (by norm_num) hl
    obtain ⟨h1, h2⟩ := take_seven_large n hl
    have h7 : (generateShortKey sum256 u).data.length = 7 := by rw [e]; exact h2
    refine ⟨h7, by rw [hb, h7], ?_, ?_⟩
    · rw [e, h1, encodeBase62_utf8ByteSize, encodeBase62_length n hpos]
      clear h256
      norm_cast
    · rw [e, Int.toNat_ofNat, List.map_take, List.map_reverse, ← encodeBase62_data n hpos]

/-- The statement C10 on the text "https://example.com": under `sizeSum256` the
digest value is 19, below `62 ^ 7`, and the key is "j"; under `rampSum256` the
digest value has 42 base-62 digits and the key is the first seven, "eOH211g". -/
theorem generateShortKey_leading_digits_witness :
    digestValue sizeSum256 "https://example.com" = 19 ∧
    generateShortKey sizeSum256 "https://example.com" = "j" ∧
    generateShortKey sizeSum256 "https://example.com"
      = encodeBase62 (digestValue sizeSum256 "https://example.com") ∧
    generateShortKey rampSum256 "https://example.com" = "eOH211g" ∧
    (generateShortKey rampSum256 "https://example.com").length = 7 ∧
    generateShortKey rampSum256 "https://example.com"
      = encodeBase62 (digestValue rampSum256 "https://example.com" /
          62 ^ ((encodeBase62
            (digestValue rampSum256 "https://example.com")).utf8ByteSize - 7)) :=
  ⟨by decide, generateShortKey_sizeSum256,
    (generateShortKey_leading_digits sizeSum256 "https://example.com").2.2.1 (by decide),
    generateShortKey_rampSum256,
    ((generateShortKey_leading_digits rampSum256 "https://example.com").2.2.2
      (by decide)).1,
    ((generateShortKey_leading_digits rampSum256 "https://example.com").2.2.2
      (by decide)).2.2.1⟩

/-! ## Lemmas on the store and the orchestrator -/

theorem Get_Save_same (s : InMemoryStorage) (k u : String) :
    (s.Save k u).1.Get k = (u, none) := by
  simp [InMemoryStorage.Save, InMemoryStorage.Get]

theorem Get_of_none (s : InMemoryStorage) (k : String) (h : s.data k = none) :
    s.Get k = ("", some "URL not found") := by
  simp [InMemoryStorage.Get, h]

theorem failure_text_ne_notFound (msg : String) :
    "не удалось получить URL: " ++ msg ≠ "URL не найден" := by
  intro h2
  have h3 := congrArg String.data h2
  rw [String.data_append] at h3
  have h4 := congrArg List.head? h3
  have h5 : ("не удалось получить URL: ".data ++ msg.data).head? = some 'н' :=
    rfl
  rw [h5] at h4
  exact absurd h4 (by decide)

theorem Shorten_valid (sum256 : ByteArray → Digest) (ParseRequestURI : String → Option URL)
    (us : URLShortener InMemoryStorage) (u : String) (h : isValidURL ParseRequestURI u = true) :
    us.Shorten sum256 ParseRequestURI u =
      ({ us with store := (us.store.Save (generateShortKey sum256 u) u).1 },
        us.urlBase ++ "/" ++ generateShortKey sum256 u, none) := by
  simp [URLShortener.Shorten, h, Storage.Save, InMemoryStorage.Save]

theorem Shorten_invalid {σ : Type} [Storage σ] (sum256 : ByteArray → Digest)
    (ParseRequestURI : String → Option URL)
    (us : URLShortener σ) (u : String) (h : isValidURL ParseRequestURI u = false) :
    us.Shorten sum256 ParseRequestURI u = (us, "", some "неправильный URL") := by
  simp [URLShortener.Shorten, h]

theorem Expand_inMemory (us : URLShortener InMemoryStorage) (k : String) :
    us.Expand k = us.store.Get k := by
  unfold URLShortener.Expand
  show (match InMemoryStorage.Get us.store k with
    | (_, some err) => ("", some err)
    | (longURL, none) => (longURL, none)) = _
  unfold InMemoryStorage.Get
  cases us.store.data k <;> rfl

theorem saveAll_data_none (writes : List (String × String)) (k : String)
    (h : ∀ w ∈ writes, w.1 ≠ k) :
    ∀ s : InMemoryStorage, s.data k = none → (saveAll s writes).data k = none := by
  induction writes with
  | nil => intro s hs; exact hs
  | cons w t ih =>
    intro s hs
    have hw : w.1 ≠ k := h w (List.mem_cons_self _ _)
    have hk : ¬ (k = w.1) := fun e => hw e.symm
    show (saveAll (s.Save w.1 w.2).1 t).data k = none
    apply ih (fun x hx => h x (List.mem_cons_of_mem _ hx))
    show (if k = w.1 then some w.2 else s.data k) = none
    rw [if_neg hk]
    exact hs

theorem step_preserves (sum256 : ByteArray → Digest) (ParseRequestURI : String → Option URL)
    (us : URLShortener InMemoryStorage) (c : Call)
    (h : StoredByShorten sum256 ParseRequestURI us) :
    StoredByShorten sum256 ParseRequestURI (step sum256 ParseRequestURI us c) := by
  cases c with
  | expand k => exact h
  | shorten longURL =>
    show StoredByShorten sum256 ParseRequestURI (us.Shorten sum256 ParseRequestURI longURL).1
    cases hv : isValidURL ParseRequestURI longURL with
    | false =>
      rw [Shorten_invalid sum256 ParseRequestURI us longURL hv]
      exact h
    | true =>
      rw [Shorten_valid sum256 ParseRequestURI us longURL hv]
      intro k u hk
      have hk2 : (if k = generateShortKey sum256 longURL then some longURL
          else us.store.data k) = some u := hk
      by_cases e : k = generateShortKey sum256 longURL
      · rw [if_pos e] at hk2
        have hu : longURL = u := Option.some.inj hk2
        subst hu
        exact ⟨hv, e⟩
      · rw [if_neg e] at hk2
        exact h k u hk2

theorem run_preserves (sum256 : ByteArray → Digest) (ParseRequestURI : String → Option URL)
    (calls : List Call) : ∀ us : URLShortener InMemoryStorage,
    StoredByShorten sum256 ParseRequestURI us →
    StoredByShorten sum256 ParseRequestURI (run sum256 ParseRequestURI us calls) := by
  induction calls with
  | nil => intro us h; exact h
  | cons c t ih =>
    intro us h
    exact ih _ (step_preserves sum256 ParseRequestURI us c h)

/-! ## The properties of the store and the orchestrator -/

/-- C3: for every state of the in-memory store, every key `k` and every URL
`u`, `Save k u` returns no error and `Get k` on the resulting store returns
exactly `u` with no error, whatever `k` was mapped to before. -/
theorem save_then_get (s : InMemoryStorage) (k u : String) :
    (s.Save k u).2 = none ∧ (s.Save k u).1.Get k = (u, none) :=
  ⟨rfl, Get_Save_same s k u⟩

/-- C4: for every URL `u` accepted by `isValidURL` and every shortener with base
address `b` over an in-memory store in any state, `Shorten u` returns
`b + "/" + generateShortKey u` with no error, a second `Shorten u` returns the
same, and `Expand (generateShortKey u)` afterwards returns `u` with no error. -/
theorem shorten_then_expand (sum256 : ByteArray → Digest)
    (ParseRequestURI : String → Option URL) (store : InMemoryStorage) (b u : String)
    (h : isValidURL ParseRequestURI u = true) :
    ((NewURLShortener store b).Shorten sum256 ParseRequestURI u).2
        = (b ++ "/" ++ generateShortKey sum256 u, none) ∧
    (((NewURLShortener store b).Shorten sum256 ParseRequestURI u).1.Shorten
        sum256 ParseRequestURI u).2 = (b ++ "/" ++ generateShortKey sum256 u, none) ∧
    ((NewURLShortener store b).Shorten sum256 ParseRequestURI u).1.Expand
        (generateShortKey sum256 u) = (u, none) := by
  rw [Shorten_valid sum256 ParseRequestURI _ u h, Shorten_valid sum256 ParseRequestURI _ u h,
    Expand_inMemory]
  exact ⟨rfl, rfl, Get_Save_same store _ u⟩

/-- The statement C4 for "https://example.com" on a store that already maps
another key, with the library's parser and the digest function `sizeSum256`,
under which the key is "j". -/
theorem shorten_then_expand_witness :
    isValidURL neturl.ParseRequestURI "https://example.com" = true ∧
    ((NewURLShortener (NewInMemoryStorage.Save "abc" "ftp://x").1
        "http://localhost:8080").Shorten sizeSum256 neturl.ParseRequestURI
        "https://example.com").2
      = ("http://localhost:8080/j", none) ∧
    ((NewURLShortener (NewInMemoryStorage.Save "abc" "ftp://x").1
        "http://localhost:8080").Shorten sizeSum256 neturl.ParseRequestURI
        "https://example.com").1.Expand "j"
      = ("https://example.com", none) := by
  have h := shorten_then_expand sizeSum256 neturl.ParseRequestURI
    (NewInMemoryStorage.Save "abc" "ftp://x").1 "http://localhost:8080" "https://example.com"
    (by decide)
  rw [generateShortKey_sizeSum256] at h
  exact ⟨by decide, h.1, h.2.2⟩

/-- C5: on an in-memory store obtained from `NewInMemoryStorage` by a finite
sequence of `Save` calls whose keys all differ from `k`, `Get k` returns the
empty string with the error "URL not found", and `Expand k` on a shortener over
that store returns the empty string with that same error. -/
theorem get_unsaved_key (writes : List (String × String)) (k b : String)
    (h : ∀ w ∈ writes, w.1 ≠ k) :
    (saveAll NewInMemoryStorage writes).Get k = ("", some "URL not found") ∧
    (NewURLShortener (saveAll NewInMemoryStorage writes) b).Expand k
      = ("", ((saveAll NewInMemoryStorage writes).Get k).2) := by
  have hg := Get_of_none _ k (saveAll_data_none writes k h NewInMemoryStorage rfl)
  refine ⟨hg, ?_⟩
  rw [Expand_inMemory]
  show (saveAll NewInMemoryStorage writes).Get k = _
  rw [hg]

/-- The statement C5 after two `Save` calls on other keys. -/
theorem get_unsaved_key_witness :
    (saveAll NewInMemoryStorage [("abc", "ftp://x"), ("xyz", "https://example.com")]).Get "key"
      = ("", some "URL not found") ∧
    (NewURLShortener
        (saveAll NewInMemoryStorage [("abc", "ftp://x"), ("xyz", "https://example.com")])
        "http://localhost:8080").Expand "key"
      = ("", some "URL not found") := by
  have h := get_unsaved_key [("abc", "ftp://x"), ("xyz", "https://example.com")] "key"
    "http://localhost:8080" (by decide)
  exact ⟨h.1, by rw [h.2, h.1]⟩

/-- C6: for every string `u` that `isValidURL` rejects and every store behind
the interface, `Shorten u` returns the empty string with the error
"неправильный URL" and leaves the shortener, its store included, as it was. -/
theorem shorten_invalid_unchanged {σ : Type} [Storage σ] (sum256 : ByteArray → Digest)
    (ParseRequestURI : String → Option URL) (us : URLShortener σ) (u : String)
    (h : isValidURL ParseRequestURI u = false) :
    (us.Shorten sum256 ParseRequestURI u).2 = ("", some "неправильный URL") ∧
    (us.Shorten sum256 ParseRequestURI u).1 = us ∧
    (us.Shorten sum256 ParseRequestURI u).1.store = us.store := by
  rw [Shorten_invalid sum256 ParseRequestURI us u h]
  exact ⟨rfl, rfl, rfl⟩

/-- The statement C6 for the text "not a url" on a store that holds one
pair. -/
theorem shorten_invalid_unchanged_witness :
    isValidURL neturl.ParseRequestURI "not a url" = false ∧
    ((NewURLShortener (NewInMemoryStorage.Save "abc" "ftp://x").1
        "http://localhost:8080").Shorten sizeSum256 neturl.ParseRequestURI "not a url").2
      = ("", some "неправильный URL") ∧
    ((NewURLShortener (NewInMemoryStorage.Save "abc" "ftp://x").1
        "http://localhost:8080").Shorten sizeSum256 neturl.ParseRequestURI "not a url").1.store
      = (NewInMemoryStorage.Save "abc" "ftp://x").1 :=
  ⟨by decide,
    (shorten_invalid_unchanged sizeSum256 neturl.ParseRequestURI _ "not a url" (by decide)).1,
    (shorten_invalid_unchanged sizeSum256 neturl.ParseRequestURI _ "not a url"
      (by decide)).2.2⟩

/-- C7: in every in-memory store state reached from `NewInMemoryStorage` by a
finite sequence of `Shorten` and `Expand` calls with arbitrary arguments, each
stored pair `(k, u)` has `isValidURL u = true` and `k = generateShortKey u`. -/
theorem stored_pairs_from_shorten (sum256 : ByteArray → Digest)
    (ParseRequestURI : String → Option URL) (b : String) (calls : List Call) (k u : String)
    (h : (run sum256 ParseRequestURI (NewURLShortener NewInMemoryStorage b) calls).store.data k
      = some u) :
    isValidURL ParseRequestURI u = true ∧ k = generateShortKey sum256 u :=
  run_preserves sum256 ParseRequestURI calls (NewURLShortener NewInMemoryStorage b)
    (fun _ _ hk => by cases hk) k u h

/-- The statement C7 after a rejected `Shorten`, an accepted `Shorten` and an
`Expand`: the store then maps the key "j" to "https://example.com". -/
theorem stored_pairs_from_shorten_witness :
    (run sizeSum256 neturl.ParseRequestURI
        (NewURLShortener NewInMemoryStorage "http://localhost:8080")
        [.shorten "not a url", .shorten "https://example.com", .expand "zzz"]).store.data "j"
      = some "https://example.com" ∧
    isValidURL neturl.ParseRequestURI "https://example.com" = true ∧
    "j" = generateShortKey sizeSum256 "https://example.com" := by
  have hv : isValidURL neturl.ParseRequestURI "https://example.com" = true := by decide
  have hi : isValidURL neturl.ParseRequestURI "not a url" = false := by decide
  have hrun : (run sizeSum256 neturl.ParseRequestURI
      (NewURLShortener NewInMemoryStorage "http://localhost:8080")
      [.shorten "not a url", .shorten "https://example.com", .expand "zzz"]).store.data "j"
      = some "https://example.com" := by
    simp [run, step, Shorten_invalid _ _ _ _ hi, Shorten_valid _ _ _ _ hv,
      generateShortKey_sizeSum256, InMemoryStorage.Save]
  exact ⟨hrun, stored_pairs_from_shorten sizeSum256 neturl.ParseRequestURI
    "http://localhost:8080" _ "j" "https://example.com" hrun⟩

/-- C8: with the library's request-URI parser, `isValidURL` is false on
"not a url" and on the empty string and true on "https://example.com/page" and
on "ftp://x"; and for every parser and every text, `isValidURL` is true exactly
when the text parses without error to a URL whose scheme and host are both
non-empty. -/
theorem isValidURL_spec :
    isValidURL neturl.ParseRequestURI "not a url" = false ∧
    isValidURL neturl.ParseRequestURI "" = false ∧
    isValidURL neturl.ParseRequestURI "https://example.com/page" = true ∧
    isValidURL neturl.ParseRequestURI "ftp://x" = true ∧
    ∀ (ParseRequestURI : String → Option URL) (u : String),
      isValidURL ParseRequestURI u = true ↔
        ∃ parsedURL, ParseRequestURI u = some parsedURL ∧
          parsedURL.Scheme ≠ [] ∧ parsedURL.Host ≠ [] := by
  refine ⟨by decide, by decide, by decide, by decide, ?_⟩
  intro ParseRequestURI u
  unfold isValidURL
  cases ParseRequestURI u with
  | none => simp
  | some parsedURL => simp

/-- C9, as stated, fails: on a key without a record the in-memory `Get` and the
relational `Get` whose query reports no rows do not return the same pair. -/
theorem get_notFound_differs :
    NewInMemoryStorage.Get "j"
      ≠ PostgresStorage.Get
          { db := { QueryRowScan := fun _ _ => ScanResult.errNoRows } } "j" := by
  decide

/-- C9, amended: for a key without a record in the in-memory store and a
database whose query for that key reports no rows, both `Get`s return the empty
string with an error; the in-memory error reads "URL not found", the relational
one "URL не найден"; and on a database whose query for that key fails in
another way, with any error text, the relational `Get` returns the empty string
with "не удалось получить URL: " followed by that text, which is not what it
returns when no rows are reported. -/
theorem get_notFound_both (s : InMemoryStorage) (pg : PostgresStorage) (k : String)
    (hs : s.data k = none)
    (hpg : pg.db.QueryRowScan "SELECT original_url FROM urls WHERE short_url = $1" k
      = ScanResult.errNoRows) :
    s.Get k = ("", some "URL not found") ∧
    pg.Get k = ("", some "URL не найден") ∧
    ∀ (other : PostgresStorage) (msg : String),
      other.db.QueryRowScan "SELECT original_url FROM urls WHERE short_url = $1" k
        = ScanResult.failed msg →
      other.Get k = ("", some ("не удалось получить URL: " ++ msg)) ∧
      other.Get k ≠ pg.Get k := by
  have hnf : pg.Get k = ("", some "URL не найден") := by
    unfold PostgresStorage.Get
    simp only [hpg]
  refine ⟨Get_of_none s k hs, hnf, ?_⟩
  intro other msg hother
  have hf : other.Get k = ("", some ("не удалось получить URL: " ++ msg)) := by
    unfold PostgresStorage.Get
    simp only [hother]
  refine ⟨hf, ?_⟩
  rw [hf, hnf]
  intro h
  exact failure_text_ne_notFound msg (Option.some.inj (Prod.mk.inj h).2)

/-- The amended C9 on the empty in-memory store, a database that reports no
rows for every query, and a database whose every query fails with the text
"connection refused". -/
theorem get_notFound_both_witness :
    NewInMemoryStorage.Get "j" = ("", some "URL not found") ∧
    PostgresStorage.Get { db := { QueryRowScan := fun _ _ => ScanResult.errNoRows } } "j"
      = ("", some "URL не найден") ∧
    PostgresStorage.Get
        { db := { QueryRowScan := fun _ _ => ScanResult.failed "connection refused" } } "j"
      = ("", some "не удалось получить URL: connection refused") ∧
    PostgresStorage.Get
        { db := { QueryRowScan := fun _ _ => ScanResult.failed "connection refused" } } "j"
      ≠ PostgresStorage.Get
          { db := { QueryRowScan := fun _ _ => ScanResult.errNoRows } } "j" :=
  ⟨(get_notFound_both NewInMemoryStorage
      { db := { QueryRowScan := fun _ _ => ScanResult.errNoRows } } "j" rfl rfl).1,
    (get_notFound_both NewInMemoryStorage
      { db := { QueryRowScan := fun _ _ => ScanResult.errNoRows } } "j" rfl rfl).2.1,
    ((get_notFound_both NewInMemoryStorage
      { db := { QueryRowScan := fun _ _ => ScanResult.errNoRows } } "j" rfl rfl).2.2
      { db := { QueryRowScan := fun _ _ => ScanResult.failed "connection refused" } }
      "connection refused" rfl).1,
    ((get_notFound_both NewInMemoryStorage
      { db := { QueryRowScan := fun _ _ => ScanResult.errNoRows } } "j" rfl rfl).2.2
      { db := { QueryRowScan := fun _ _ => ScanResult.failed "connection refused" } }
      "connection refused" rfl).2⟩

end UrlShortener
